import Mathlib

/-!
Verification development for the persistence and routing core of the
Sisters-On-WhatsApp repository: the topic router
(src/routing/topic_analyzer.py), the cipher service
(src/privacy/encryption.py) and the session/conversation stores
(src/session/manager.py, src/session/models.py).

Python code is shallowly embedded: strings are Lean strings, float scores
are rationals, database tables are lists of row structures, and raised
exceptions are Option/branch results.  The external cryptography library
(Fernet) and the base64 stdlib are modelled by a structure of abstract
operations carrying the library's documented contract; bytes values at
that boundary are modelled at string level (exact for the ASCII tokens the
library produces and consumes).
-/

set_option maxRecDepth 100000

namespace Sisters

/-! ## Topic analyzer (src/routing/topic_analyzer.py)

The three personas form the closed key set of the score dict built by
TopicAnalyzer.analyze. -/

inductive Character where
  | botan
  | kasho
  | yuri
deriving DecidableEq

/-- BOTAN_KEYWORDS from TopicAnalyzer, in source order (alternation order
matters for the regex model). -/
def BOTAN_KEYWORDS : List String :=
  ["stream", "streaming", "twitch", "youtube", "content", "creator",
   "video", "vtuber", "virtual", "avatar",
   "twitter", "instagram", "tiktok", "social media", "viral", "trending",
   "followers", "likes", "post", "feed",
   "movie", "show", "series", "netflix", "anime", "manga",
   "celebrity", "actor", "actress", "entertainment",
   "meme", "trend", "popular", "culture", "fashion", "style",
   "party", "event", "meet", "hangout", "friend", "social"]

/-- KASHO_KEYWORDS from TopicAnalyzer, in source order. -/
def KASHO_KEYWORDS : List String :=
  ["music", "song", "album", "artist", "band", "guitar", "piano",
   "drum", "instrument", "melody", "rhythm", "chord", "note",
   "compose", "production", "record", "studio", "beat",
   "career", "job", "work", "professional", "advice", "help",
   "decision", "choose", "problem", "solve", "relationship",
   "love", "dating", "breakup", "friend", "family",
   "goal", "plan", "future", "grow", "improve", "develop",
   "success", "balance", "stress", "worry", "concern"]

/-- YURI_KEYWORDS from TopicAnalyzer, in source order. -/
def YURI_KEYWORDS : List String :=
  ["book", "read", "novel", "story", "author", "writer", "literature",
   "fiction", "poetry", "poem", "write", "writing",
   "science fiction", "sci-fi", "fantasy", "dragon", "magic",
   "space", "alien", "future", "dystopia", "utopia",
   "philosophy", "meaning", "existence", "why", "purpose",
   "think", "thought", "idea", "concept", "theory",
   "creative", "imagination", "indie", "underground", "alternative",
   "art", "artistic", "experimental", "unique", "weird"]

/-- Word character in the sense of the regex metacharacter used by the
compiled keyword patterns (ASCII model of Python re's word class). -/
def isWordChar (c : Char) : Bool := c.isAlphanum || c == '_'

/-- Whether an optional adjacent character is a word character (none means
the edge of the string). -/
def optWord : Option Char → Bool
  | none => false
  | some c => isWordChar c

/-- Word-boundary test between two adjacent positions, as the regex engine
evaluates the boundary metacharacter. -/
def boundary (a b : Option Char) : Bool := optWord a != optWord b

/-- First keyword of the alternation (in list order) that matches literally
at the start of s and whose trailing word-boundary check succeeds; returns
the keyword and the remaining suffix.  Models the regex engine trying the
alternatives left to right with backtracking on the trailing boundary. -/
def firstKw (kws : List (List Char)) (s : List Char) : Option (List Char × List Char) :=
  match kws with
  | [] => none
  | kw :: rest =>
    if kw.isPrefixOf s then
      let r := s.drop kw.length
      if boundary kw.getLast? r.head? then some (kw, r) else firstKw rest s
    else firstKw rest s

/-- Scan of re.findall over the message: at each position whose leading
boundary check succeeds, try the alternation; on a match, continue after
the matched keyword (non-overlapping), otherwise advance one character.
The fuel argument bounds the recursion (each step consumes at least one
character). -/
def countAux (kws : List (List Char)) : Nat → Option Char → List Char → Nat
  | 0, _, _ => 0
  | _, _, [] => 0
  | fuel + 1, prev, c :: rest =>
    if boundary prev (some c) then
      match firstKw kws (c :: rest) with
      | some (kw, r) => 1 + countAux kws fuel kw.getLast? r
      | none => countAux kws fuel (some c) rest
    else countAux kws fuel (some c) rest

/-- len(pattern.findall(message)) for the compiled keyword pattern. -/
def countMatches (kws : List String) (s : String) : Nat :=
  countAux (kws.map String.data) (s.data.length + 1) none s.data

/-- Python str.lower (ASCII model). -/
def lowerStr (s : String) : String := String.mk (s.data.map Char.toLower)

/-- Token counter underlying len(message.split()): counts maximal runs of
non-whitespace characters. -/
def countTokens : Bool → List Char → Nat
  | _, [] => 0
  | inTok, c :: rest =>
    if c.isWhitespace then countTokens false rest
    else (if inTok then 0 else 1) + countTokens true rest

/-- len(message.split()). -/
def wordCount (s : String) : Nat := countTokens false s.data

/-- Python str.startswith, on the character lists. -/
def startswith (p s : String) : Bool := p.data.isPrefixOf s.data

/-- Substring containment on character lists. -/
def containsSub (sub : List Char) : List Char → Bool
  | [] => sub.isEmpty
  | c :: rest => sub.isPrefixOf (c :: rest) || containsSub sub rest

/-- Python membership test sub in s (substring containment), for any of the
given substrings. -/
def anyInfix (subs : List String) (s : String) : Bool :=
  subs.any (fun sub => containsSub sub.data s.data)

/-- Python str.startswith with a tuple of alternatives. -/
def startswithAny (ps : List String) (s : String) : Bool :=
  ps.any (fun p => startswith p s)

/-- scores[c] += q on the score map. -/
def bump (sc : Character → ℚ) (c : Character) (q : ℚ) : Character → ℚ :=
  fun x => if x = c then sc x + q else sc x

/-- TopicAnalyzer._apply_bonuses, applied to the lowercased message. -/
def applyBonuses (ml : String) (sc : Character → ℚ) : Character → ℚ :=
  let sc1 := if anyInfix ["vtuber", "streaming", "viral", "trending"] ml then
    bump sc Character.botan (1/2) else sc
  let sc2 := if anyInfix ["music", "advice", "help me", "what should i"] ml then
    bump sc1 Character.kasho (1/2) else sc1
  let sc3 := if anyInfix ["book", "philosophy", "why", "meaning"] ml then
    bump sc2 Character.yuri (1/2) else sc2
  if startswithAny ["what", "how", "why", "when", "where"] ml then
    if startswith "why" ml then bump sc3 Character.yuri (3/10)
    else if startswith "how" ml && anyInfix ["should", "can i", "do i"] ml then
      bump sc3 Character.kasho (3/10)
    else sc3
  else sc3

/-- TopicAnalyzer.analyze: normalized keyword-match counts plus bonuses.
Float scores are modelled as rationals. -/
def analyze (message : String) : Character → ℚ :=
  let ml := lowerStr message
  let wc0 := wordCount message
  let wc : ℚ := ((if wc0 = 0 then 1 else wc0 : ℕ) : ℚ)
  let base : Character → ℚ := fun c =>
    match c with
    | Character.botan => (countMatches BOTAN_KEYWORDS ml : ℚ) / wc
    | Character.kasho => (countMatches KASHO_KEYWORDS ml : ℚ) / wc
    | Character.yuri => (countMatches YURI_KEYWORDS ml : ℚ) / wc
  applyBonuses ml base

/-- max(scores.items(), key=...) over iteration order botan, kasho, yuri:
Python max keeps the earlier item on ties. -/
def bestCharacter (sc : Character → ℚ) : Character :=
  List.foldl (fun acc c => if sc c > sc acc then c else acc)
    Character.botan [Character.kasho, Character.yuri]

/-- TopicAnalyzer.select_character: switch to the best-scoring persona only
if its score strictly exceeds the current persona's score plus the
threshold; otherwise keep the current persona. -/
def select_character (message : String) (current : Character) (threshold : ℚ) :
    Character × (Character → ℚ) :=
  let scores := analyze message
  let best := bestCharacter scores
  if scores best > scores current + threshold then (best, scores) else (current, scores)

/-- Maximum of the three per-persona scores. -/
def maxScore (sc : Character → ℚ) : ℚ :=
  max (sc Character.botan) (max (sc Character.kasho) (sc Character.yuri))

/-! ## Cipher service (src/privacy/encryption.py)

ConversationEncryption delegates token encryption/decryption to the external
cryptography library (Fernet) and base64 decoding to the Python stdlib.
Those two collaborators are modelled by a structure of abstract operations
together with the library's documented contract: Fernet decryption inverts
Fernet encryption, and every Fernet token starts with the base64 rendering
"gAAAAA" of its fixed version byte 0x80.  Python bytes values at this
boundary are modelled as strings (byte-per-character; exact for the ASCII
tokens the library produces), and a raised exception inside the repository's
try blocks is modelled as an Option none result. -/

structure FernetLib where
  fernetEncrypt : String → String
  fernetDecrypt : String → Option String
  b64decode : String → Option String
  tokenMarked : ∀ s, startswith "gAAAAA" (fernetEncrypt s) = true
  decEnc : ∀ s, fernetDecrypt (fernetEncrypt s) = some s

/-- ConversationEncryption.encrypt: empty input is returned unchanged,
otherwise the Fernet token for the utf-8 plaintext is returned.  (The
source re-raises library failures from its try block; the modelled library
call is total on valid inputs.) -/
def encrypt (F : FernetLib) (p : String) : String :=
  if p = "" then p else F.fernetEncrypt p

/-- ConversationEncryption.decrypt: empty passthrough; legacy double-encoded
tokens (recognized by the Z0FBQUFB marker) are base64-decoded and then
Fernet-decrypted; current tokens (gAAAAA marker) are Fernet-decrypted
directly; unknown formats and any failure return the original input. -/
def decrypt (F : FernetLib) (c : String) : String :=
  if c = "" then c
  else if startswith "Z0FBQUFB" c then
    match F.b64decode c with
    | some tok =>
      match F.fernetDecrypt tok with
      | some pt => pt
      | none => c
    | none => c
  else if startswith "gAAAAA" c then
    match F.fernetDecrypt c with
    | some pt => pt
    | none => c
  else c

/-- ConversationEncryption.is_encrypted: true iff the value carries one of
the two recognized ciphertext markers. -/
def is_encrypted (t : String) : Bool :=
  if t = "" then false
  else if startswith "Z0FBQUFB" t then true
  else if startswith "gAAAAA" t then true
  else false

/-- ConversationEncryption.encrypt_if_needed. -/
def encrypt_if_needed (F : FernetLib) (t : String) : String :=
  if is_encrypted t then t else encrypt F t

/-- ConversationEncryption.decrypt_if_needed. -/
def decrypt_if_needed (F : FernetLib) (t : String) : String :=
  if !is_encrypted t then t else decrypt F t

/-- Concrete instance of the modelled library contract, used by the witness
theorems: the token for s is the marker "gAAAAAm" followed by s, decryption
inverts exactly that shape, and base64 decoding succeeds on one fixed
legacy input. -/
def modelFernet : FernetLib where
  fernetEncrypt s := String.mk ("gAAAAAm".data ++ s.data)
  fernetDecrypt t :=
    if startswith "gAAAAAm" t then some (String.mk (t.data.drop 7)) else none
  b64decode t := if t = "Z0FBQUFB" then some "junk" else none
  tokenMarked := by
    intro s
    simp [startswith, List.isPrefixOf]
  decEnc := by
    intro s
    have hc : startswith "gAAAAAm" (String.mk ("gAAAAAm".data ++ s.data)) = true := by
      simp [startswith, List.isPrefixOf]
    show (if startswith "gAAAAAm" (String.mk ("gAAAAAm".data ++ s.data)) = true
        then some (String.mk (("gAAAAAm".data ++ s.data).drop 7)) else none) = some s
    rw [if_pos hc]
    rfl

/-! ## Identifier hashing (ConversationEncryption.hash_phone_number)

The salted SHA-256 digest is computed by hashlib; SHA-256 itself is
implemented here so that concrete digests are computable, with 32-bit words
as naturals reduced mod 2^32.  String-to-bytes encoding is modelled as the
character codes (exact utf-8 for the ASCII identifiers and salt involved). -/

/-- str.encode for ASCII text: the byte is the character code. -/
def encodeBytes (s : String) : List Nat := s.data.map Char.toNat

def M32 : Nat := 4294967296

def add32 (a b : Nat) : Nat := (a + b) % M32

def rotr (n x : Nat) : Nat := ((x >>> n) ||| (x <<< (32 - n))) % M32

def bnot32 (x : Nat) : Nat := 4294967295 ^^^ x

def bigS0 (x : Nat) : Nat := rotr 2 x ^^^ rotr 13 x ^^^ rotr 22 x

def bigS1 (x : Nat) : Nat := rotr 6 x ^^^ rotr 11 x ^^^ rotr 25 x

def smallS0 (x : Nat) : Nat := rotr 7 x ^^^ rotr 18 x ^^^ (x >>> 3)

def smallS1 (x : Nat) : Nat := rotr 17 x ^^^ rotr 19 x ^^^ (x >>> 10)

def ch32 (x y z : Nat) : Nat := (x &&& y) ^^^ (bnot32 x &&& z)

def maj32 (x y z : Nat) : Nat := (x &&& y) ^^^ (x &&& z) ^^^ (y &&& z)

/-- SHA-256 round constants (decimal rendering of the FIPS 180-4 table). -/
def K256 : List Nat :=
  [1116352408, 1899447441, 3049323471, 3921009573, 961987163, 1508970993,
   2453635748, 2870763221, 3624381080, 310598401, 607225278, 1426881987,
   1925078388, 2162078206, 2614888103, 3248222580, 3835390401, 4022224774,
   264347078, 604807628, 770255983, 1249150122, 1555081692, 1996064986,
   2554220882, 2821834349, 2952996808, 3210313671, 3336571891, 3584528711,
   113926993, 338241895, 666307205, 773529912, 1294757372, 1396182291,
   1695183700, 1986661051, 2177026350, 2456956037, 2730485921, 2820302411,
   3259730800, 3345764771, 3516065817, 3600352804, 4094571909, 275423344,
   430227734, 506948616, 659060556, 883997877, 958139571, 1322822218,
   1537002063, 1747873779, 1955562222, 2024104815, 2227730452, 2361852424,
   2428436474, 2756734187, 3204031479, 3329325298]

/-- The eight SHA-256 working registers. -/
structure Hash8 where
  a : Nat
  b : Nat
  c : Nat
  d : Nat
  e : Nat
  f : Nat
  g : Nat
  h : Nat
deriving DecidableEq

/-- SHA-256 initial hash value (decimal rendering). -/
def H0 : Hash8 :=
  ⟨1779033703, 3144134277, 1013904242, 2773480762, 1359893119, 2600822924, 528734635, 1541459225⟩

/-- One SHA-256 compression round. -/
def shaStep (st : Hash8) (kw : Nat × Nat) : Hash8 :=
  let t1 := add32 st.h (add32 (bigS1 st.e) (add32 (ch32 st.e st.f st.g) (add32 kw.1 kw.2)))
  let t2 := add32 (bigS0 st.a) (maj32 st.a st.b st.c)
  ⟨add32 t1 t2, st.a, st.b, st.c, add32 st.d t1, st.e, st.f, st.g⟩

/-- Message-schedule extension of a 16-word block (fuel 48). -/
def extendSchedule : Nat → List Nat → List Nat
  | 0, acc => acc
  | fuel + 1, acc =>
    let n := acc.length
    let w := add32 (add32 (smallS1 (acc.getD (n - 2) 0)) (acc.getD (n - 7) 0))
                   (add32 (smallS0 (acc.getD (n - 15) 0)) (acc.getD (n - 16) 0))
    extendSchedule fuel (acc ++ [w])

/-- SHA-256 compression of one 16-word block. -/
def compress (st : Hash8) (block : List Nat) : Hash8 :=
  let w := extendSchedule 48 block
  let r := List.foldl shaStep st (K256.zip w)
  ⟨add32 st.a r.a, add32 st.b r.b, add32 st.c r.c, add32 st.d r.d,
   add32 st.e r.e, add32 st.f r.f, add32 st.g r.g, add32 st.h r.h⟩

/-- Big-endian 32-bit words from a byte list. -/
def toWords : List Nat → List Nat
  | b0 :: b1 :: b2 :: b3 :: rest => (((b0 * 256 + b1) * 256 + b2) * 256 + b3) :: toWords rest
  | _ => []

/-- Chunking of a word list into 16-word blocks (fuel-bounded). -/
def chunks16 : Nat → List Nat → List (List Nat)
  | 0, _ => []
  | _, [] => []
  | fuel + 1, ws => ws.take 16 :: chunks16 fuel (ws.drop 16)

/-- SHA-256 digest of a byte list, as eight 32-bit words. -/
def sha256words (msg : List Nat) : List Nat :=
  let l := msg.length
  let padZeros := (119 - (l % 64)) % 64
  let bitLen := l * 8
  let lenBytes := [7, 6, 5, 4, 3, 2, 1, 0].map (fun i => (bitLen >>> (8 * i)) % 256)
  let padded := msg ++ [128] ++ List.replicate padZeros 0 ++ lenBytes
  let ws := toWords padded
  let final := List.foldl compress H0 (chunks16 ws.length ws)
  [final.a, final.b, final.c, final.d, final.e, final.f, final.g, final.h]

/-- Lowercase hex digit for a value below 16 (48 is the code of the digit
zero, 87 + 10 the code of the letter a). -/
def hexChar (n : Nat) : Char :=
  if n < 10 then Char.ofNat (48 + n) else Char.ofNat (87 + n)

def wordToHex (w : Nat) : List Char := [7, 6, 5, 4, 3, 2, 1, 0].map (fun i => hexChar ((w >>> (4 * i)) % 16))

/-- hashlib.sha256(...).hexdigest(): 64 lowercase hex characters. -/
def sha256hex (msg : List Nat) : String := String.mk (((sha256words msg).map wordToHex).flatten)

/-- Default value of the PHONE_HASH_SALT environment variable
("sisters_phone_salt_v1"). -/
def defaultSalt : String := "sisters_phone_salt_v1"

/-- The normalization step of hash_phone_number:
phone_number.strip().replace(" ", "").replace("-", "").  Note the source
removes spaces and hyphens but never prepends a "+". -/
def normalizePhone (p : String) : String :=
  String.mk
    (((p.data.dropWhile Char.isWhitespace).reverse.dropWhile Char.isWhitespace).reverse.filter
      (fun c => !(c == ' ' || c == '-')))

/-- ConversationEncryption.hash_phone_number: empty passthrough, then the
salted SHA-256 hexdigest of the normalized identifier. -/
def hash_phone_number (salt : String) (phone : String) : String :=
  if phone = "" then phone
  else sha256hex (encodeBytes salt ++ encodeBytes (normalizePhone phone))

/-! ## Session and conversation stores (src/session/manager.py, models.py)

Database tables are lists of row structures in insertion order; a query's
first() is the first list element satisfying the filter; committing an
UPDATE on a row applies the column onupdate refresh of last_interaction.
The autoincrement id of a freshly inserted row is modelled as one past the
current row count, and timestamps are abstract naturals supplied by the
caller (the server defaults of created_at / timestamp columns). -/

structure UserSessionRow where
  id : Nat
  phone_hash : Option String
  phone_number : String
  current_character : String
  last_interaction : Nat
  created_at : Nat
deriving DecidableEq

structure ConversationRow where
  id : Nat
  phone_hash : Option String
  phone_number : String
  character : String
  role : String
  content : String
  timestamp : Nat
deriving DecidableEq

/-- Filter UserSession.phone_hash == phone_hash. -/
def hashMatch (h : String) (r : UserSessionRow) : Bool := r.phone_hash == some h

/-- Filter UserSession.phone_number == phone_number AND phone_hash IS NULL
(the legacy lookup of get_or_create_session). -/
def legacyMatch (phone : String) (r : UserSessionRow) : Bool :=
  r.phone_hash == none && r.phone_number == phone

/-- In-place mutation of the first row satisfying p, as committing the ORM
update of the queried row. -/
def updateFirst (p : α → Bool) (f : α → α) : List α → List α
  | [] => []
  | x :: xs => if p x then f x :: xs else x :: updateFirst p f xs

/-- The legacy-record migration performed inside get_or_create_session:
set phone_hash, overwrite phone_number with its ciphertext, and commit
(which refreshes the onupdate column last_interaction). -/
def migrateRow (h encPhone : String) (now : Nat) (r : UserSessionRow) : UserSessionRow :=
  { r with phone_hash := some h, phone_number := encPhone, last_interaction := now }

/-- SessionManager.get_or_create_session: lookup by hash, then legacy lookup
by cleartext phone with null hash (migrating in place on a hit), then
creation of a fresh row with default character "botan". -/
def get_or_create_session (hashF : String → String) (F : FernetLib) (now : Nat)
    (db : List UserSessionRow) (phone : String) : UserSessionRow × List UserSessionRow :=
  let h := hashF phone
  match db.find? (hashMatch h) with
  | some s => (s, db)
  | none =>
    match db.find? (legacyMatch phone) with
    | some s =>
      (migrateRow h (encrypt F phone) now s,
       updateFirst (legacyMatch phone) (migrateRow h (encrypt F phone) now) db)
    | none =>
      let s : UserSessionRow := ⟨db.length + 1, some h, encrypt F phone, "botan", now, now⟩
      (s, db ++ [s])

/-- SessionManager.update_character: find by hash, else by plain phone
number (with no null-hash restriction), and if found set current_character
and last_interaction; silently a no-op when nothing matches. -/
def update_character (hashF : String → String) (now : Nat) (db : List UserSessionRow)
    (phone ch : String) : List UserSessionRow :=
  let h := hashF phone
  if (db.find? (hashMatch h)).isSome then
    updateFirst (hashMatch h) (fun r => { r with current_character := ch, last_interaction := now }) db
  else if (db.find? (fun r => r.phone_number == phone)).isSome then
    updateFirst (fun r => r.phone_number == phone)
      (fun r => { r with current_character := ch, last_interaction := now }) db
  else db

/-- SessionManager.add_message: unconditionally insert one encrypted row;
the role string is stored as given (no validation anywhere in the call
path, and the role column carries no constraint beyond its length). -/
def add_message (hashF : String → String) (F : FernetLib) (now : Nat)
    (db : List ConversationRow) (phone character role content : String) : List ConversationRow :=
  db ++ [⟨db.length + 1, some (hashF phone), encrypt F phone, character, role, encrypt F content, now⟩]

/-- The character filter of get_conversation_history: applied only when the
character argument is truthy (neither None nor empty). -/
def charFilter (character : Option String) (r : ConversationRow) : Bool :=
  match character with
  | none => true
  | some c => if c = "" then true else r.character == c

/-- ORDER BY timestamp DESC: a comes no later in the output than b when b's
timestamp is at most a's. -/
def laterFirst (a b : ConversationRow) : Prop := b.timestamp ≤ a.timestamp

instance : DecidableRel laterFirst := fun a b => Nat.decLe b.timestamp a.timestamp

instance : IsTotal ConversationRow laterFirst := ⟨fun a b => Nat.le_total b.timestamp a.timestamp⟩

instance : IsTrans ConversationRow laterFirst := ⟨fun _ _ _ hab hbc => Nat.le_trans hbc hab⟩

/-- The database sort ORDER BY timestamp DESC, modelled by insertion sort
with the laterFirst relation (ties in unspecified order, as in SQL). -/
def sortDesc (l : List ConversationRow) : List ConversationRow := List.insertionSort laterFirst l

/-- Row selection of SessionManager.get_conversation_history: filter by
hash (and optionally character), order most-recent-first, limit, fall back
to the legacy cleartext query when no rows were returned, and reverse into
chronological order. -/
def historyRows (hashF : String → String) (db : List ConversationRow) (phone : String)
    (character : Option String) (limit : Nat) : List ConversationRow :=
  let h := hashF phone
  let m1 := (sortDesc (db.filter (fun r => r.phone_hash == some h && charFilter character r))).take limit
  let msgs :=
    if m1.isEmpty then
      (sortDesc (db.filter
        (fun r => r.phone_number == phone && r.phone_hash == none && charFilter character r))).take limit
    else m1
  msgs.reverse

/-- SessionManager.get_conversation_history: the selected rows projected to
(role, content), decrypting content when is_encrypted recognizes it. -/
def get_conversation_history (hashF : String → String) (F : FernetLib) (db : List ConversationRow)
    (phone : String) (character : Option String) (limit : Nat) : List (String × String) :=
  (historyRows hashF db phone character limit).map
    (fun r => (r.role, if is_encrypted r.content then decrypt F r.content else r.content))

/-! ## Helper lemmas -/

lemma best_unfold (sc : Character → ℚ) :
    bestCharacter sc =
      (if sc (if sc Character.botan < sc Character.kasho then Character.kasho else Character.botan) <
          sc Character.yuri then Character.yuri
        else if sc Character.botan < sc Character.kasho then Character.kasho else Character.botan) :=
  rfl

lemma best_eq_max (sc : Character → ℚ) : sc (bestCharacter sc) = maxScore sc := by
  rw [best_unfold, maxScore]
  rcases lt_or_ge (sc Character.botan) (sc Character.kasho) with h1 | h1
  · rw [if_pos h1]
    rcases lt_or_ge (sc Character.kasho) (sc Character.yuri) with h2 | h2
    · rw [if_pos h2, max_eq_right (le_of_lt h2), max_eq_right (le_of_lt (lt_trans h1 h2))]
    · rw [if_neg (not_lt.mpr h2), max_eq_left h2, max_eq_right (le_of_lt h1)]
  · rw [if_neg (not_lt.mpr h1)]
    rcases lt_or_ge (sc Character.botan) (sc Character.yuri) with h2 | h2
    · rw [if_pos h2, max_eq_right (le_trans h1 (le_of_lt h2)), max_eq_right (le_of_lt h2)]
    · rw [if_neg (not_lt.mpr h2), max_eq_left (max_le h1 h2)]

lemma select_core (sc : Character → ℚ) (current : Character) (threshold : ℚ)
    (hth : 0 ≤ threshold) :
    (((if sc (bestCharacter sc) > sc current + threshold then (bestCharacter sc, sc)
        else (current, sc)).1 ≠ current) ↔ maxScore sc > sc current + threshold)
    ∧ (maxScore sc ≤ sc current + threshold →
      (if sc (bestCharacter sc) > sc current + threshold then (bestCharacter sc, sc)
        else (current, sc)).1 = current) := by
  have hbest := best_eq_max sc
  by_cases hc : sc (bestCharacter sc) > sc current + threshold
  · rw [if_pos hc]
    dsimp only
    refine ⟨⟨fun _ => by rwa [hbest] at hc, fun _ heq => ?_⟩, fun hle => ?_⟩
    · rw [heq] at hc
      exact absurd hc (by linarith)
    · rw [hbest] at hc
      exact absurd hc (not_lt.mpr hle)
  · rw [if_neg hc]
    dsimp only
    rw [hbest] at hc
    exact ⟨by simp [hc], fun _ => rfl⟩

/-! ## Claims about the topic router -/

/-- Claim C1 (code_bug evaluation): the spec and the repository's own test
suite (test_direct_addressing.py) require a vocative override — a message
that directly addresses a persona by name at its start must select that
persona regardless of hysteresis — but select_character implements no such
override.  On the spec's own example "Kasho, what book should I read?" with
current persona yuri, and on the test suite's case "botan what do you
think" with current persona yuri, the code retains yuri instead of
switching to the addressed persona. -/
theorem claim1 :
    (select_character "Kasho, what book should I read?" Character.yuri (3/10)).1 = Character.yuri
    ∧ (select_character "botan what do you think" Character.yuri (3/10)).1 = Character.yuri := by
  constructor
  · have cB : countMatches BOTAN_KEYWORDS (lowerStr "Kasho, what book should I read?") = 0 := by decide
    have cK : countMatches KASHO_KEYWORDS (lowerStr "Kasho, what book should I read?") = 0 := by decide
    have cY : countMatches YURI_KEYWORDS (lowerStr "Kasho, what book should I read?") = 2 := by decide
    have wc : wordCount "Kasho, what book should I read?" = 6 := by decide
    have b1 : anyInfix ["vtuber", "streaming", "viral", "trending"]
      (lowerStr "Kasho, what book should I read?") = false := by decide
    have b2 : anyInfix ["music", "advice", "help me", "what should i"]
      (lowerStr "Kasho, what book should I read?") = false := by decide
    have b3 : anyInfix ["book", "philosophy", "why", "meaning"]
      (lowerStr "Kasho, what book should I read?") = true := by decide
    have q1 : startswithAny ["what", "how", "why", "when", "where"]
      (lowerStr "Kasho, what book should I read?") = false := by decide
    simp [select_character, analyze, applyBonuses, bump, bestCharacter, List.foldl,
      cB, cK, cY, wc, b1, b2, b3, q1] <;> norm_num
  · have cB : countMatches BOTAN_KEYWORDS (lowerStr "botan what do you think") = 0 := by decide
    have cK : countMatches KASHO_KEYWORDS (lowerStr "botan what do you think") = 0 := by decide
    have cY : countMatches YURI_KEYWORDS (lowerStr "botan what do you think") = 1 := by decide
    have wc : wordCount "botan what do you think" = 5 := by decide
    have b1 : anyInfix ["vtuber", "streaming", "viral", "trending"]
      (lowerStr "botan what do you think") = false := by decide
    have b2 : anyInfix ["music", "advice", "help me", "what should i"]
      (lowerStr "botan what do you think") = false := by decide
    have b3 : anyInfix ["book", "philosophy", "why", "meaning"]
      (lowerStr "botan what do you think") = false := by decide
    have q1 : startswithAny ["what", "how", "why", "when", "where"]
      (lowerStr "botan what do you think") = false := by decide
    simp [select_character, analyze, applyBonuses, bump, bestCharacter, List.foldl,
      cB, cK, cY, wc, b1, b2, b3, q1] <;> norm_num

/-- Claim C2: for every message, current persona and (nonnegative)
hysteresis threshold, select_character returns a persona different from the
current one exactly when the maximum per-persona score strictly exceeds the
current persona's score plus the threshold; whenever the margin is at most
the threshold (in particular for all-zero scores) the current persona is
retained. -/
theorem claim2 (message : String) (current : Character) (threshold : ℚ)
    (hth : 0 ≤ threshold) :
    (((select_character message current threshold).1 ≠ current) ↔
      maxScore (analyze message) > analyze message current + threshold)
    ∧ (maxScore (analyze message) ≤ analyze message current + threshold →
      (select_character message current threshold).1 = current) := by
  have h := select_core (analyze message) current threshold hth
  simpa [select_character] using h

/-- Witness for C2 at the message "zzz" (no keyword matches, all scores
zero), current persona kasho and the default threshold 3/10: the margin is
zero, so kasho is retained and the switch condition is false. -/
theorem claim2_witness :
    (((select_character "zzz" Character.kasho (3/10)).1 ≠ Character.kasho) ↔
      maxScore (analyze "zzz") > analyze "zzz" Character.kasho + 3/10)
    ∧ (maxScore (analyze "zzz") ≤ analyze "zzz" Character.kasho + 3/10 →
      (select_character "zzz" Character.kasho (3/10)).1 = Character.kasho) :=
  claim2 "zzz" Character.kasho (3/10) (by norm_num)

/-! ## Claims about the cipher service -/

lemma startswith_ne_nil {p t : String} (hp : p.data ≠ []) (h : startswith p t = true) :
    t ≠ "" := by
  intro he
  subst he
  unfold startswith at h
  cases hd : p.data with
  | nil => exact hp hd
  | cons a l =>
    rw [hd] at h
    have hz : ("".data : List Char) = [] := rfl
    rw [hz] at h
    simp [List.isPrefixOf] at h

lemma g_not_z {t : String} (h : startswith "gAAAAA" t = true) :
    startswith "Z0FBQUFB" t = false := by
  by_contra hzc
  rw [Bool.not_eq_false] at hzc
  unfold startswith at h hzc
  obtain ⟨r, hr⟩ := List.isPrefixOf_iff_prefix.mp h
  obtain ⟨q, hq⟩ := List.isPrefixOf_iff_prefix.mp hzc
  rw [← hr] at hq
  simp at hq

/-- Claim C3: decrypt is total (exceptions inside its try block are modelled
as Option failures) and returns the original input unchanged whenever the
input carries neither recognized ciphertext marker, or carries one but the
library fails to decode or decrypt it. -/
theorem claim3 (F : FernetLib) (c : String) :
    (startswith "Z0FBQUFB" c = false → startswith "gAAAAA" c = false → decrypt F c = c)
    ∧ (startswith "gAAAAA" c = true → F.fernetDecrypt c = none → decrypt F c = c)
    ∧ (startswith "Z0FBQUFB" c = true → F.b64decode c = none → decrypt F c = c)
    ∧ (startswith "Z0FBQUFB" c = true →
        ∀ tok, F.b64decode c = some tok → F.fernetDecrypt tok = none → decrypt F c = c) := by
  refine ⟨fun hz hg => ?_, fun hg hd => ?_, fun hz hb => ?_, fun hz tok hb hd => ?_⟩ <;>
    unfold decrypt
  · by_cases he : c = ""
    · rw [if_pos he]
    · rw [if_neg he, if_neg (by simp [hz]), if_neg (by simp [hg])]
  · have he : c ≠ "" := startswith_ne_nil (by decide) hg
    rw [if_neg he, if_neg (by simp [g_not_z hg]), if_pos hg, hd]
  · have he : c ≠ "" := startswith_ne_nil (by decide) hz
    rw [if_neg he, if_pos hz, hb]
  · have he : c ≠ "" := startswith_ne_nil (by decide) hz
    rw [if_neg he, if_pos hz, hb]
    dsimp only
    rw [hd]

/-- Witness for C3: one concrete input per failure mode against the model
library — unknown format, current-format token the library rejects, legacy
marker that fails base64 decoding, and legacy marker whose decoded token the
library rejects; each is returned unchanged. -/
theorem claim3_witness :
    decrypt modelFernet "hello" = "hello"
    ∧ decrypt modelFernet "gAAAAAx" = "gAAAAAx"
    ∧ decrypt modelFernet "Z0FBQUFBx" = "Z0FBQUFBx"
    ∧ decrypt modelFernet "Z0FBQUFB" = "Z0FBQUFB" :=
  ⟨(claim3 modelFernet "hello").1 (by decide) (by decide),
   (claim3 modelFernet "gAAAAAx").2.1 (by decide) (by decide),
   (claim3 modelFernet "Z0FBQUFBx").2.2.1 (by decide) (by decide),
   (claim3 modelFernet "Z0FBQUFB").2.2.2 (by decide) "junk" (by decide) (by decide)⟩

/-- Claim C4: decryption inverts encryption on every non-empty string under
the same key, and the empty string passes through both operations
unchanged. -/
theorem claim4 (F : FernetLib) (x : String) (hx : x ≠ "") :
    decrypt F (encrypt F x) = x ∧ encrypt F "" = "" ∧ decrypt F "" = "" := by
  refine ⟨?_, by simp [encrypt], by simp [decrypt]⟩
  unfold encrypt
  rw [if_neg hx]
  have hg := F.tokenMarked x
  have hne : F.fernetEncrypt x ≠ "" := startswith_ne_nil (by decide) hg
  unfold decrypt
  rw [if_neg hne, if_neg (by simp [g_not_z hg]), if_pos hg, F.decEnc x]

/-- Witness for C4 at the plaintext "abc" against the model library. -/
theorem claim4_witness :
    decrypt modelFernet (encrypt modelFernet "abc") = "abc"
    ∧ encrypt modelFernet "" = "" ∧ decrypt modelFernet "" = "" :=
  claim4 modelFernet "abc" (by decide)

/-- Claim C9: every encrypt output carries a recognized ciphertext marker,
so encrypt_if_needed never double-encrypts: applied to an already-encrypted
value it returns it unchanged, and composing it with itself equals a single
application on every non-empty string. -/
theorem claim9 (F : FernetLib) (x : String) (hx : x ≠ "") :
    is_encrypted (encrypt F x) = true
    ∧ encrypt_if_needed F (encrypt_if_needed F x) = encrypt_if_needed F x := by
  have h1 : is_encrypted (encrypt F x) = true := by
    unfold encrypt
    rw [if_neg hx]
    have hg := F.tokenMarked x
    have hne : F.fernetEncrypt x ≠ "" := startswith_ne_nil (by decide) hg
    unfold is_encrypted
    rw [if_neg hne]
    by_cases hzz : startswith "Z0FBQUFB" (F.fernetEncrypt x) = true
    · rw [if_pos hzz]
    · rw [if_neg hzz, if_pos hg]
  refine ⟨h1, ?_⟩
  by_cases he : is_encrypted x = true
  · have e1 : encrypt_if_needed F x = x := by unfold encrypt_if_needed; rw [if_pos he]
    rw [e1, e1]
  · have e1 : encrypt_if_needed F x = encrypt F x := by unfold encrypt_if_needed; rw [if_neg he]
    rw [e1]
    unfold encrypt_if_needed
    rw [if_pos h1]

/-- Witness for C9 at the plaintext "abc" against the model library. -/
theorem claim9_witness :
    is_encrypted (encrypt modelFernet "abc") = true
    ∧ encrypt_if_needed modelFernet (encrypt_if_needed modelFernet "abc") =
      encrypt_if_needed modelFernet "abc" :=
  claim9 modelFernet "abc" (by decide)

/-! ## Claims about the session and conversation stores -/

lemma find?_eq_none_of {α : Type} {p : α → Bool} {l : List α}
    (h : ∀ r ∈ l, p r = false) : l.find? p = none :=
  List.find?_eq_none.mpr fun x hx => by simp [h x hx]

lemma find?_pre {α : Type} {p : α → Bool} {s : α} (hs : p s = true) :
    ∀ (pre : List α) (post : List α), (∀ r ∈ pre, p r = false) →
      (pre ++ s :: post).find? p = some s := by
  intro pre post hpre
  induction pre with
  | nil => simp [List.find?_cons, hs]
  | cons a t ih =>
    have ha : p a = false := hpre a (by simp)
    simp only [List.cons_append, List.find?_cons, ha]
    exact ih fun r hr => hpre r (by simp [hr])

lemma updateFirst_pre {α : Type} {p : α → Bool} {f : α → α} {s : α} (hs : p s = true) :
    ∀ (pre : List α) (post : List α), (∀ r ∈ pre, p r = false) →
      updateFirst p f (pre ++ s :: post) = pre ++ f s :: post := by
  intro pre post hpre
  induction pre with
  | nil => simp [updateFirst, hs]
  | cons a t ih =>
    have ha : p a = false := hpre a (by simp)
    simp only [List.cons_append, updateFirst, ha, Bool.false_eq_true, if_false, List.cons.injEq,
      true_and]
    exact ih fun r hr => hpre r (by simp [hr])

lemma forall₂_updateFirst {α : Type} {P : α → α → Prop} {p : α → Bool} {f : α → α}
    (hf : ∀ a, P a (f a)) (ha : ∀ a, P a a) :
    ∀ l, List.Forall₂ P l (updateFirst p f l) := by
  intro l
  induction l with
  | nil => exact List.Forall₂.nil
  | cons x xs ih =>
    by_cases hx : p x = true
    · simp only [updateFirst, hx, if_true]
      exact List.Forall₂.cons (hf x) (List.forall₂_same.mpr fun y _ => ha y)
    · simp only [updateFirst, hx, if_false]
      exact List.Forall₂.cons (ha x) ih

/-- Claim C5 counterexample: appending a turn whose role is "system" — a
value outside {"user","assistant"} — succeeds and inserts the row, so the
claimed rejection does not happen. -/
theorem claim5_counterexample :
    (add_message (fun s => s) modelFernet 0 [] "p" "botan" "system" "hi").map
      (fun r => r.role) = ["system"]
    ∧ (add_message (fun s => s) modelFernet 0 [] "p" "botan" "system" "hi").length = 1 := by
  constructor <;> rfl

/-- Claim C5 (amended): add_message performs no role validation — for every
role value, including values outside {"user","assistant"}, exactly one row
is inserted and it carries the given role verbatim. -/
theorem claim5 (hashF : String → String) (F : FernetLib) (now : Nat)
    (db : List ConversationRow) (phone character role content : String)
    (hrole : role ≠ "user" ∧ role ≠ "assistant") :
    (add_message hashF F now db phone character role content).length = db.length + 1
    ∧ (add_message hashF F now db phone character role content).getLast? =
      some ⟨db.length + 1, some (hashF phone), encrypt F phone, character, role,
        encrypt F content, now⟩ := by
  constructor
  · simp [add_message]
  · simp [add_message, List.getLast?_concat]

/-- Witness for C5 (amended) with the role "system" on an empty table. -/
theorem claim5_witness :
    (add_message (fun s => s) modelFernet 3 [] "p" "botan" "system" "hi").length = 1
    ∧ (add_message (fun s => s) modelFernet 3 [] "p" "botan" "system" "hi").getLast? =
      some ⟨1, some "p", encrypt modelFernet "p", "botan", "system",
        encrypt modelFernet "hi", 3⟩ :=
  claim5 (fun s => s) modelFernet 3 [] "p" "botan" "system" "hi" ⟨by decide, by decide⟩

/-- Claim C6: on a table holding a single legacy row for the identifier
(null hash, cleartext identifier, no row carrying the identifier's hash),
the first get_or_create_session call migrates that row in place — its hash
is set and its identifier replaced by the ciphertext — and a second call
finds the migrated row by hash and changes nothing: the state after two
calls equals the state after one, with exactly one row for the
identifier. -/
theorem claim6 (hashF : String → String) (F : FernetLib) (now1 now2 : Nat)
    (pre post : List UserSessionRow) (s : UserSessionRow) (phone : String)
    (h1 : s.phone_hash = none) (h2 : s.phone_number = phone)
    (h3 : ∀ r ∈ pre, legacyMatch phone r = false)
    (h4 : ∀ r ∈ pre ++ s :: post, hashMatch (hashF phone) r = false) :
    get_or_create_session hashF F now1 (pre ++ s :: post) phone =
      (migrateRow (hashF phone) (encrypt F phone) now1 s,
       pre ++ migrateRow (hashF phone) (encrypt F phone) now1 s :: post)
    ∧ get_or_create_session hashF F now2
        (pre ++ migrateRow (hashF phone) (encrypt F phone) now1 s :: post) phone =
      (migrateRow (hashF phone) (encrypt F phone) now1 s,
       pre ++ migrateRow (hashF phone) (encrypt F phone) now1 s :: post)
    ∧ (pre ++ migrateRow (hashF phone) (encrypt F phone) now1 s :: post).countP
        (hashMatch (hashF phone)) = 1
    ∧ (migrateRow (hashF phone) (encrypt F phone) now1 s).phone_hash = some (hashF phone)
    ∧ (migrateRow (hashF phone) (encrypt F phone) now1 s).phone_number = encrypt F phone := by
  have hsl : legacyMatch phone s = true := by simp [legacyMatch, h1, h2]
  have hsm : hashMatch (hashF phone) (migrateRow (hashF phone) (encrypt F phone) now1 s) = true := by
    simp [hashMatch, migrateRow]
  have hpre4 : ∀ r ∈ pre, hashMatch (hashF phone) r = false :=
    fun r hr => h4 r (List.mem_append_left _ hr)
  have hpost4 : ∀ r ∈ post, hashMatch (hashF phone) r = false :=
    fun r hr => h4 r (List.mem_append_right _ (List.mem_cons_of_mem _ hr))
  have hfind1 : (pre ++ s :: post).find? (hashMatch (hashF phone)) = none := find?_eq_none_of h4
  have hfind2 : (pre ++ s :: post).find? (legacyMatch phone) = some s := find?_pre hsl pre post h3
  have hupd := updateFirst_pre
    (p := legacyMatch phone) (f := migrateRow (hashF phone) (encrypt F phone) now1)
    hsl pre post h3
  refine ⟨?_, ?_, ?_, rfl, rfl⟩
  · simp only [get_or_create_session]
    rw [hfind1, hfind2]
    dsimp only
    rw [hupd]
  · simp only [get_or_create_session]
    rw [find?_pre hsm pre post hpre4]
  · rw [List.countP_append, List.countP_cons]
    rw [List.countP_eq_zero.mpr (fun r hr => by simp [hpre4 r hr]),
      List.countP_eq_zero.mpr (fun r hr => by simp [hpost4 r hr]), hsm]
    simp

/-- Witness for C6: a one-row legacy table for identifier "p" under the
constant hash function and the model cipher, migrated at time 5 and probed
again at time 9. -/
theorem claim6_witness :
    get_or_create_session (fun _ => "h") modelFernet 5 [⟨1, none, "p", "kasho", 0, 0⟩] "p" =
      (migrateRow "h" (encrypt modelFernet "p") 5 ⟨1, none, "p", "kasho", 0, 0⟩,
       [migrateRow "h" (encrypt modelFernet "p") 5 ⟨1, none, "p", "kasho", 0, 0⟩])
    ∧ get_or_create_session (fun _ => "h") modelFernet 9
        [migrateRow "h" (encrypt modelFernet "p") 5 ⟨1, none, "p", "kasho", 0, 0⟩] "p" =
      (migrateRow "h" (encrypt modelFernet "p") 5 ⟨1, none, "p", "kasho", 0, 0⟩,
       [migrateRow "h" (encrypt modelFernet "p") 5 ⟨1, none, "p", "kasho", 0, 0⟩])
    ∧ ([migrateRow "h" (encrypt modelFernet "p") 5 ⟨1, none, "p", "kasho", 0, 0⟩]).countP
        (hashMatch "h") = 1
    ∧ (migrateRow "h" (encrypt modelFernet "p") 5 ⟨1, none, "p", "kasho", 0, 0⟩).phone_hash =
      some "h"
    ∧ (migrateRow "h" (encrypt modelFernet "p") 5 ⟨1, none, "p", "kasho", 0, 0⟩).phone_number =
      encrypt modelFernet "p" :=
  claim6 (fun _ => "h") modelFernet 5 9 [] [] ⟨1, none, "p", "kasho", 0, 0⟩ "p"
    rfl rfl (by simp) (by decide)

/-- Claim C10: update_character touches only current_character and the
onupdate column last_interaction; id, phone_hash, phone_number and
created_at of every row are left unchanged, so it never migrates a legacy
row even when it found it by cleartext identifier. -/
theorem claim10 (hashF : String → String) (now : Nat) (db : List UserSessionRow)
    (phone ch : String) :
    List.Forall₂
      (fun r r' : UserSessionRow =>
        r'.id = r.id ∧ r'.phone_hash = r.phone_hash ∧ r'.phone_number = r.phone_number ∧
          r'.created_at = r.created_at)
      db (update_character hashF now db phone ch) := by
  have ha : ∀ r : UserSessionRow,
      r.id = r.id ∧ r.phone_hash = r.phone_hash ∧ r.phone_number = r.phone_number ∧
        r.created_at = r.created_at := fun r => ⟨rfl, rfl, rfl, rfl⟩
  simp only [update_character]
  split_ifs with hf1 hf2
  · exact forall₂_updateFirst (fun r => ⟨rfl, rfl, rfl, rfl⟩) ha db
  · exact forall₂_updateFirst (fun r => ⟨rfl, rfl, rfl, rfl⟩) ha db
  · exact List.forall₂_same.mpr fun r _ => ha r

/-- Claim C8: get_conversation_history returns at most limit entries; the
selected rows are in non-decreasing timestamp order (most-recent-first
query then reversal); and when no row matches the identifier hash the
result comes from the single legacy fallback query by cleartext identifier
with null hash. -/
theorem claim8 (hashF : String → String) (F : FernetLib) (db : List ConversationRow)
    (phone : String) (character : Option String) (limit : Nat) :
    (get_conversation_history hashF F db phone character limit).length ≤ limit
    ∧ List.Pairwise (fun a b : ConversationRow => a.timestamp ≤ b.timestamp)
      (historyRows hashF db phone character limit)
    ∧ (db.filter (fun r => r.phone_hash == some (hashF phone) && charFilter character r) = [] →
      historyRows hashF db phone character limit =
        ((sortDesc (db.filter (fun r =>
          r.phone_number == phone && r.phone_hash == none && charFilter character r))).take
            limit).reverse) := by
  have key : ∀ l : List ConversationRow, List.Sorted laterFirst l →
      List.Pairwise (fun a b : ConversationRow => a.timestamp ≤ b.timestamp) l.reverse := by
    intro l hl
    rw [List.pairwise_reverse]
    exact hl
  refine ⟨?_, ?_, fun hf => ?_⟩
  · unfold get_conversation_history historyRows
    simp only [List.length_map, List.length_reverse]
    split
    · exact List.length_take_le _ _
    · exact List.length_take_le _ _
  · unfold historyRows
    apply key
    split
    · exact (List.sorted_insertionSort _ _).sublist (List.take_sublist _ _)
    · exact (List.sorted_insertionSort _ _).sublist (List.take_sublist _ _)
  · simp only [historyRows]
    rw [hf]
    simp [sortDesc, List.insertionSort]

/-- Witness for C8 on a two-row legacy-only table: no row matches the hash
"h", so the fallback query serves both rows chronologically. -/
theorem claim8_witness :
    (get_conversation_history (fun _ => "h") modelFernet
      [⟨1, none, "p", "kasho", "user", "hi", 4⟩, ⟨2, none, "p", "kasho", "assistant", "yo", 2⟩]
      "p" none 5).length ≤ 5
    ∧ List.Pairwise (fun a b : ConversationRow => a.timestamp ≤ b.timestamp)
      (historyRows (fun _ => "h")
        [⟨1, none, "p", "kasho", "user", "hi", 4⟩, ⟨2, none, "p", "kasho", "assistant", "yo", 2⟩]
        "p" none 5)
    ∧ historyRows (fun _ => "h")
        [⟨1, none, "p", "kasho", "user", "hi", 4⟩, ⟨2, none, "p", "kasho", "assistant", "yo", 2⟩]
        "p" none 5 =
      ((sortDesc ([⟨1, none, "p", "kasho", "user", "hi", 4⟩,
          ⟨2, none, "p", "kasho", "assistant", "yo", 2⟩].filter (fun r =>
            r.phone_number == "p" && r.phone_hash == none && charFilter none r))).take 5).reverse := by
  have h := claim8 (fun _ => "h") modelFernet
    [⟨1, none, "p", "kasho", "user", "hi", 4⟩, ⟨2, none, "p", "kasho", "assistant", "yo", 2⟩]
    "p" none 5
  exact ⟨h.1, h.2.1, h.2.2 (by decide)⟩

/-! ## Claim about identifier hashing -/

/-- Claim C7 (code_bug evaluation): hash_phone_number removes spaces and
hyphens before hashing, and renders a fixed-length 64-character hex digest;
but contrary to the claim and to the source's own comment ("ensure +
prefix"), no leading "+" is enforced: under the default salt the
identifiers "123" and "+123", which differ only in the leading marker,
normalize to themselves and hash to different digests. -/
theorem claim7 :
    hash_phone_number defaultSalt "+1 2-3" = hash_phone_number defaultSalt "+123"
    ∧ (hash_phone_number defaultSalt "+123").length = 64
    ∧ normalizePhone "123" = "123"
    ∧ normalizePhone "+123" = "+123"
    ∧ hash_phone_number defaultSalt "123" ≠ hash_phone_number defaultSalt "+123" := by
  refine ⟨?_, ?_, ?_, ?_, ?_⟩ <;> decide

end Sisters
